import Mathlib

/-!
Shallow embedding of `quadrotor_pendulum.py`: a planar quadrotor with a
pivot-mounted pendulum link.  Machine floats are modelled by exact reals;
`numpy` matrix operations by Mathlib matrices; Python exceptions by
`Except`.  In-place mutation of the caller's command array `u` inside
`evaluate_f` is modelled by returning the final contents of `u` (also on
the error paths, where the error value records the contents of `u` at the
moment the exception is raised).
-/

open Real Matrix

/-- Physical parameters stored by `QuadrotorPendulum.__init__`
(the constructor performs no validation; it stores the six numbers). -/
structure QuadrotorPendulum where
  mb : ℝ
  lb : ℝ
  m1 : ℝ
  l1 : ℝ
  g : ℝ
  input_max : ℝ

/-- Mirrors `QuadrotorPendulum.__init__`: the six parameters are stored
unchanged; no check of any kind is performed. -/
def mkQuadrotorPendulum (mb lb m1 l1 g input_max : ℝ) : QuadrotorPendulum :=
  ⟨mb, lb, m1, l1, g, input_max⟩

/-- Mirror of `self.Ib = 1/3 * mb * lb**2`, computed in the constructor. -/
noncomputable def QuadrotorPendulum.Ib (p : QuadrotorPendulum) : ℝ :=
  1 / 3 * p.mb * p.lb ^ 2

/-- Mirror of `self.I1 = 1/3 * m1 * l1**2`, computed in the constructor. -/
noncomputable def QuadrotorPendulum.I1 (p : QuadrotorPendulum) : ℝ :=
  1 / 3 * p.m1 * p.l1 ^ 2

/-- The slice `x[0:4]` (generalized positions). -/
def qOf (x : Fin 8 → ℝ) : Fin 4 → ℝ := fun i => x ⟨i.val, by omega⟩

/-- The slice `x[4:8]` (generalized velocities). -/
def qdOf (x : Fin 8 → ℝ) : Fin 4 → ℝ := fun i => x ⟨i.val + 4, by omega⟩

/-- Mirror of `np.hstack([a, b])` for two 4-vectors. -/
def joinVec (a b : Fin 4 → ℝ) : Fin 8 → ℝ := fun i =>
  if h : i.val < 4 then a ⟨i.val, h⟩ else b ⟨i.val - 4, by omega⟩

/-- Mirror of `QuadrotorPendulum.GetManipulatorDynamics(q, qd)`, returning
`(M, C, tauG, B)` exactly as built in the source. -/
noncomputable def GetManipulatorDynamics (p : QuadrotorPendulum) (q qd : Fin 4 → ℝ) :
    Matrix (Fin 4) (Fin 4) ℝ × Matrix (Fin 4) (Fin 4) ℝ × (Fin 4 → ℝ) ×
      Matrix (Fin 4) (Fin 2) ℝ :=
  (!![p.mb + p.m1, 0, 0, p.m1 * p.l1 * Real.cos (q 3);
      0, p.mb + p.m1, 0, p.m1 * p.l1 * Real.sin (q 3);
      0, 0, p.Ib, 0;
      p.m1 * p.l1 * Real.cos (q 3), p.m1 * p.l1 * Real.sin (q 3), 0,
        p.I1 + p.m1 * p.l1 ^ 2],
   !![0, 0, 0, -p.m1 * p.l1 * Real.sin (q 3) * qd 3;
      0, 0, 0, p.m1 * p.l1 * Real.cos (q 3) * qd 3;
      0, 0, 0, 0;
      0, 0, 0, 0],
   ![0, -(p.m1 + p.mb) * p.g, 0, -p.m1 * p.l1 * p.g * Real.sin (q 3)],
   !![-Real.sin (q 2), -Real.sin (q 2);
      Real.cos (q 2), Real.cos (q 2);
      -p.lb, p.lb;
      0, 0])

/-- Errors `evaluate_f` can raise.  `inputRange` models the `ValueError`
raised in strict mode (the raising branch determines the component index,
the message carries the value); `singularMatrix` models the
`numpy.linalg.LinAlgError` raised by `np.linalg.inv` on a singular mass
matrix.  Both record the contents of the caller's array `u` at the moment
of the raise, so that the mutation behaviour is observable. -/
inductive EvalError where
  | inputRange (index : Fin 2) (value : ℝ) (uAtRaise : Fin 2 → ℝ)
  | singularMatrix (uAtRaise : Fin 2 → ℝ)

/-- Mirror of `max(-input_max, min(input_max, v))`. -/
noncomputable def clampInput (m v : ℝ) : ℝ := max (-m) (min m v)

/-- The body of `evaluate_f` after the input-bounding phase: slice the
state, build the manipulator matrices and return
`hstack([qd, inv(M) @ (tauG + B u - C qd)])`. -/
noncomputable def dynamicsFrom (p : QuadrotorPendulum) (u : Fin 2 → ℝ) (x : Fin 8 → ℝ) :
    Except EvalError ((Fin 2 → ℝ) × (Fin 8 → ℝ)) :=
  let q := qOf x
  let qd := qdOf x
  let mcgb := GetManipulatorDynamics p q qd
  if mcgb.1.det = 0 then Except.error (EvalError.singularMatrix u)
  else
    let qdd := mcgb.1⁻¹ *ᵥ fun i => mcgb.2.2.1 i + (mcgb.2.2.2 *ᵥ u) i - (mcgb.2.1 *ᵥ qd) i
    Except.ok (u, joinVec qd qdd)

/-- Mirror of `QuadrotorPendulum.evaluate_f(u, x, throw_when_limits_exceeded)`.
The returned pair is `(u, xdot)` where the first component is the final
contents of the caller's array `u` (each component is written back with
its clamped value on every non-raising path, exactly as in the source). -/
noncomputable def evaluate_f (p : QuadrotorPendulum) (u : Fin 2 → ℝ) (x : Fin 8 → ℝ)
    (throw_when_limits_exceeded : Bool) :
    Except EvalError ((Fin 2 → ℝ) × (Fin 8 → ℝ)) :=
  if throw_when_limits_exceeded = true ∧ |u 0| > p.input_max then
    Except.error (EvalError.inputRange 0 (u 0) u)
  else
    let u0 := Function.update u 0 (clampInput p.input_max (u 0))
    if throw_when_limits_exceeded = true ∧ |u0 1| > p.input_max then
      Except.error (EvalError.inputRange 1 (u0 1) u0)
    else
      let u1 := Function.update u0 1 (clampInput p.input_max (u0 1))
      dynamicsFrom p u1 x

/-- Local constant `alpha = m1*l1/(m1+mb)` of `GetLinearizedDynamics`. -/
noncomputable def QuadrotorPendulum.alpha (p : QuadrotorPendulum) : ℝ :=
  p.m1 * p.l1 / (p.m1 + p.mb)

/-- Local constant `I = I1 + m1*mb*l1**2/(m1+mb)` of `GetLinearizedDynamics`. -/
noncomputable def QuadrotorPendulum.Ired (p : QuadrotorPendulum) : ℝ :=
  p.I1 + p.m1 * p.mb * p.l1 ^ 2 / (p.m1 + p.mb)

/-- Mirror of `QuadrotorPendulum.GetLinearizedDynamics(u_f, x_f)`, returning `(A, B)`.
The matrices are written here entry by entry with exactly the expressions
assigned in the source (all entries never assigned there are `0`; the
block `A[:4, 4:]` is the identity). -/
noncomputable def GetLinearizedDynamics (p : QuadrotorPendulum) (u_f : Fin 2 → ℝ)
    (x_f : Fin 8 → ℝ) : Matrix (Fin 8) (Fin 8) ℝ × Matrix (Fin 8) (Fin 2) ℝ :=
  let q := qOf x_f
  let qd := qdOf x_f
  let a := p.alpha
  let Iv := p.Ired
  let U := u_f 0 + u_f 1
  (!![0, 0, 0, 0, 1, 0, 0, 0;
      0, 0, 0, 0, 0, 1, 0, 0;
      0, 0, 0, 0, 0, 0, 1, 0;
      0, 0, 0, 0, 0, 0, 0, 1;
      0, 0,
        (-1 / (p.m1 + p.mb) * Real.cos (q 2)
          - a ^ 2 / Iv * Real.cos (q 3) * Real.cos (q 3 - q 2)) * U,
        a * Real.cos (q 3) * qd 3 ^ 2 + a ^ 2 / Iv * Real.cos (2 * q 3 - q 2) * U,
        0, 0, 0, 2 * a * Real.sin (q 3) * qd 3;
      0, 0,
        (-(p.I1 + p.m1 * p.l1 ^ 2) / (p.m1 + p.mb) / Iv * Real.sin (q 2)
          - a ^ 2 / Iv * Real.cos (q 3) * Real.sin (q 3 - q 2)) * U,
        a * Real.sin (q 3) * qd 3 ^ 2 + a ^ 2 / Iv * Real.sin (2 * q 3 - q 2) * U,
        0, 0, 0, -2 * a * Real.cos (q 3) * qd 3;
      0, 0, 0, 0, 0, 0, 0, 0;
      0, 0,
        a / Iv * Real.cos (q 3 - q 2) * U,
        -(a / Iv) * Real.cos (q 3 - q 2) * U,
        0, 0, 0, 0],
   !![0, 0;
      0, 0;
      0, 0;
      0, 0;
      -1 / (p.m1 + p.mb) * Real.sin (q 2) + a ^ 2 / Iv * Real.cos (q 3) * Real.sin (q 3 - q 2),
        -1 / (p.m1 + p.mb) * Real.sin (q 2) + a ^ 2 / Iv * Real.cos (q 3) * Real.sin (q 3 - q 2);
      (p.I1 + p.m1 * p.l1 ^ 2) / (p.m1 + p.mb) / Iv * Real.cos (q 2)
          - a ^ 2 / Iv * Real.cos (q 3) * Real.cos (q 3 - q 2),
        (p.I1 + p.m1 * p.l1 ^ 2) / (p.m1 + p.mb) / Iv * Real.cos (q 2)
          - a ^ 2 / Iv * Real.cos (q 3) * Real.cos (q 3 - q 2);
      -p.lb / p.Ib, p.lb / p.Ib;
      -(a / Iv) * Real.sin (q 3 - q 2), -(a / Iv) * Real.sin (q 3 - q 2)])

/-- The controller object: a feedback rule, the control period and the
reporting period (`QuadrotorController.__init__`). -/
structure QuadrotorController where
  feedback_rule : (Fin 8 → ℝ) → ℝ → Fin 2 → ℝ
  control_period : ℝ
  print_period : ℝ

/-- The mutable data touched by the controller callbacks: the held
discrete command register and `self.last_print_time`. -/
structure ControllerState where
  control_input : Fin 2 → ℝ
  last_print_time : ℝ

/-- Mirror of `QuadrotorController.DoCalcDiscreteVariableUpdates`: a control-period
tick overwrites the held register with `feedback_rule(x, t)`. -/
def DoCalcDiscreteVariableUpdates (c : QuadrotorController) (x : Fin 8 → ℝ) (t : ℝ)
    (s : ControllerState) : ControllerState :=
  { s with control_input := c.feedback_rule x t }

/-- Mirror of `QuadrotorController.DoCalcVectorOutput`: returns the held register as
the output; the only mutation is the bookkeeping of `last_print_time`. -/
noncomputable def DoCalcVectorOutput (c : QuadrotorController) (t : ℝ) (s : ControllerState) :
    (Fin 2 → ℝ) × ControllerState :=
  let s1 := if c.print_period ≠ 0 ∧ t - s.last_print_time ≥ c.print_period then
      { s with last_print_time := t } else s
  (s.control_input, s1)

/-- A sequence of output queries at the given times, with the controller
state threaded through; returns the list of outputs and the final state. -/
noncomputable def queryRun (c : QuadrotorController) :
    List ℝ → ControllerState → List (Fin 2 → ℝ) × ControllerState
  | [], s => ([], s)
  | t :: ts, s =>
    let r := DoCalcVectorOutput c t s
    let rest := queryRun c ts r.2
    (r.1 :: rest.1, rest.2)

/-- The contents of the caller's array `u` after a call to `evaluate_f`
(also on the error paths, from the record in the error value). -/
def uAfterCall (r : Except EvalError ((Fin 2 → ℝ) × (Fin 8 → ℝ))) : Fin 2 → ℝ :=
  match r with
  | Except.ok (u, _) => u
  | Except.error (EvalError.inputRange _ _ u) => u
  | Except.error (EvalError.singularMatrix u) => u

/-- In non-strict mode both bounding branches clamp-and-write, so
`evaluate_f` is the dynamics body applied to the pointwise-clamped input. -/
theorem evaluate_f_nonstrict (p : QuadrotorPendulum) (u : Fin 2 → ℝ) (x : Fin 8 → ℝ) :
    evaluate_f p u x false =
      dynamicsFrom p (fun i => clampInput p.input_max (u i)) x := by
  unfold evaluate_f
  rw [if_neg (by simp), if_neg (by simp)]
  have harg : Function.update (Function.update u 0 (clampInput p.input_max (u 0))) 1
      (clampInput p.input_max (Function.update u 0 (clampInput p.input_max (u 0)) 1)) =
      fun i => clampInput p.input_max (u i) := by
    funext i
    fin_cases i <;> simp [Function.update]
  show dynamicsFrom p (Function.update (Function.update u 0 (clampInput p.input_max (u 0))) 1
      (clampInput p.input_max (Function.update u 0 (clampInput p.input_max (u 0)) 1))) x = _
  rw [harg]

/-- Any sequence of output queries starting from state `s` returns the
held register every time and leaves the register unchanged. -/
theorem queryRun_const (c : QuadrotorController) (ts : List ℝ) (s : ControllerState) :
    (queryRun c ts s).1 = List.replicate ts.length s.control_input ∧
      (queryRun c ts s).2.control_input = s.control_input := by
  induction ts generalizing s with
  | nil => exact ⟨rfl, rfl⟩
  | cons t ts ih =>
    have hout : (DoCalcVectorOutput c t s).1 = s.control_input := rfl
    have hreg : (DoCalcVectorOutput c t s).2.control_input = s.control_input := by
      unfold DoCalcVectorOutput
      split <;> rfl
    constructor
    · show (DoCalcVectorOutput c t s).1 ::
        (queryRun c ts (DoCalcVectorOutput c t s).2).1 = _
      rw [hout, (ih _).1, hreg, List.length_cons, List.replicate]
    · show (queryRun c ts (DoCalcVectorOutput c t s).2).2.control_input = _
      rw [(ih _).2, hreg]

/-- C3 (counterexample): constructing the model with the nonpositive body
mass `mb = -1` does not fail — the constructor performs no validation, it
returns a model storing `mb = -1` and computes the (negative) inertia
`Ib = 1/3 * (-1) * (1/5)^2` from it.  There is no `InvalidParameterError`
anywhere in the source. -/
theorem mk_accepts_nonpositive_mass :
    (mkQuadrotorPendulum (-1) (1 / 5) 2 (1 / 5) 10 10).mb = -1 ∧
      (mkQuadrotorPendulum (-1) (1 / 5) 2 (1 / 5) 10 10).Ib =
        1 / 3 * (-1) * (1 / 5) ^ 2 :=
  ⟨rfl, rfl⟩

/-- C3 (amended): construction never fails and performs no validation at
all — for every parameter values (nonpositive masses and lengths
included) the constructor succeeds, stores the six parameters unchanged,
and derives `Ib = mb*lb^2/3` and `I1 = m1*l1^2/3`. -/
theorem mk_stores_parameters_unchanged (mb lb m1 l1 g input_max : ℝ) :
    (mkQuadrotorPendulum mb lb m1 l1 g input_max).mb = mb ∧
      (mkQuadrotorPendulum mb lb m1 l1 g input_max).lb = lb ∧
      (mkQuadrotorPendulum mb lb m1 l1 g input_max).m1 = m1 ∧
      (mkQuadrotorPendulum mb lb m1 l1 g input_max).l1 = l1 ∧
      (mkQuadrotorPendulum mb lb m1 l1 g input_max).g = g ∧
      (mkQuadrotorPendulum mb lb m1 l1 g input_max).input_max = input_max ∧
      (mkQuadrotorPendulum mb lb m1 l1 g input_max).Ib = 1 / 3 * mb * lb ^ 2 ∧
      (mkQuadrotorPendulum mb lb m1 l1 g input_max).I1 = 1 / 3 * m1 * l1 ^ 2 :=
  ⟨rfl, rfl, rfl, rfl, rfl, rfl, rfl, rfl⟩

/-- C5: with `input_max = 10`, for every state `x`, the strict-mode call
`evaluate_f(u=[20,0], x, throw_when_limits_exceeded=True)` raises the
out-of-range error for component index 0 with value 20, and the caller's
command array is left untouched (the recorded array at the raise is the
original `[20, 0]`); no other state is written. -/
theorem evaluate_f_strict_raises_index0 (p : QuadrotorPendulum) (x : Fin 8 → ℝ)
    (hmax : p.input_max = 10) :
    evaluate_f p ![20, 0] x true =
      Except.error (EvalError.inputRange 0 20 ![20, 0]) := by
  have h0 : (![(20 : ℝ), 0]) 0 = 20 := rfl
  unfold evaluate_f
  rw [if_pos ⟨rfl, by rw [h0, hmax]; norm_num⟩, h0]

/-- Witness for C5 at the default parameters and the zero state. -/
theorem evaluate_f_strict_raises_index0_witness :
    evaluate_f (mkQuadrotorPendulum 1 (1 / 5) 2 (1 / 5) 10 10) ![20, 0]
        (fun _ => 0) true =
      Except.error (EvalError.inputRange 0 20 ![20, 0]) :=
  evaluate_f_strict_raises_index0 _ _ rfl

/-- C6: with `input_max = 10`, for every state `x`, the non-strict call
with `u = [20, 20]` returns exactly the same result as the non-strict
call with `u = [10, 10]`: out-of-range commands are clamped to
`[-input_max, input_max]` before the dynamics are evaluated. -/
theorem evaluate_f_clamps_to_limit (p : QuadrotorPendulum) (x : Fin 8 → ℝ)
    (hmax : p.input_max = 10) :
    evaluate_f p ![20, 20] x false = evaluate_f p ![10, 10] x false := by
  rw [evaluate_f_nonstrict, evaluate_f_nonstrict]
  have harg : (fun i => clampInput p.input_max (![(20 : ℝ), 20] i)) =
      fun i => clampInput p.input_max (![(10 : ℝ), 10] i) := by
    funext i
    fin_cases i <;> simp [clampInput, hmax] <;> norm_num
  rw [harg]

/-- Witness for C6 at the default parameters and the zero state. -/
theorem evaluate_f_clamps_to_limit_witness :
    evaluate_f (mkQuadrotorPendulum 1 (1 / 5) 2 (1 / 5) 10 10) ![20, 20]
        (fun _ => 0) false =
      evaluate_f (mkQuadrotorPendulum 1 (1 / 5) 2 (1 / 5) 10 10) ![10, 10]
        (fun _ => 0) false :=
  evaluate_f_clamps_to_limit _ _ rfl

/-- C9: for every command array `u` and state `x`, the non-strict call
`evaluate_f(u, x, False)` writes each component of the caller's array `u`
back as `max(-input_max, min(input_max, u[i]))` (a write-back happens even
for components already in range, and also when the subsequent mass-matrix
solve raises): after the call the caller's array holds exactly the
clamped values. -/
theorem evaluate_f_writes_back_clamped (p : QuadrotorPendulum) (u : Fin 2 → ℝ)
    (x : Fin 8 → ℝ) :
    uAfterCall (evaluate_f p u x false) =
      fun i => clampInput p.input_max (u i) := by
  rw [evaluate_f_nonstrict]
  simp only [dynamicsFrom]
  split <;> rfl

/-- C8: the controller is a pure zero-order hold.  After a tick
(`DoCalcDiscreteVariableUpdates`) stores `feedback_rule(x, t0)` in the
register, every output query (`DoCalcVectorOutput`), at whatever times and
however many, returns exactly that held value — the output list of any
query sequence is constant — and output evaluation never changes the held
command register. -/
theorem controller_zero_order_hold (c : QuadrotorController) (x : Fin 8 → ℝ)
    (t0 : ℝ) (s : ControllerState) (ts : List ℝ) :
    (queryRun c ts (DoCalcDiscreteVariableUpdates c x t0 s)).1 =
        List.replicate ts.length (c.feedback_rule x t0) ∧
      (queryRun c ts (DoCalcDiscreteVariableUpdates c x t0 s)).2.control_input =
        c.feedback_rule x t0 :=
  queryRun_const c ts (DoCalcDiscreteVariableUpdates c x t0 s)

/-- C10: for every operating point, row 6 of the `A` matrix returned by
`GetLinearizedDynamics` is identically zero (the linearized body-angle
acceleration depends on no state perturbation), and the input enters that
row only through row 6 of `B`, whose entries are `-lb/Ib` and `lb/Ib`. -/
theorem linearized_body_angle_row (p : QuadrotorPendulum) (u_f : Fin 2 → ℝ)
    (x_f : Fin 8 → ℝ) :
    (∀ j, (GetLinearizedDynamics p u_f x_f).1 6 j = 0) ∧
      (GetLinearizedDynamics p u_f x_f).2 6 0 = -p.lb / p.Ib ∧
      (GetLinearizedDynamics p u_f x_f).2 6 1 = p.lb / p.Ib := by
  refine ⟨fun j => ?_, rfl, rfl⟩
  fin_cases j <;> rfl

/-- The determinant of the mass matrix does not depend on the
configuration: `det M = Ib * (mb+m1) * ((mb+m1)*I1 + m1*mb*l1^2)`. -/
theorem det_massMatrix (p : QuadrotorPendulum) (q qd : Fin 4 → ℝ) :
    (GetManipulatorDynamics p q qd).1.det =
      p.Ib * ((p.mb + p.m1) *
        ((p.mb + p.m1) * p.I1 + p.m1 * p.mb * p.l1 ^ 2)) := by
  simp [GetManipulatorDynamics, Matrix.det_succ_row_zero, Fin.sum_univ_succ,
    Fin.castSucc, Fin.castAdd, Fin.castLE]
  linear_combination (-(p.Ib * (p.mb + p.m1) * (p.m1 * p.l1) ^ 2)) *
    Real.sin_sq_add_cos_sq (q 3)

/-- For positive parameters the mass-matrix determinant is positive. -/
theorem det_massMatrix_pos (p : QuadrotorPendulum) (hmb : 0 < p.mb) (hlb : 0 < p.lb)
    (hm1 : 0 < p.m1) (hl1 : 0 < p.l1) (q qd : Fin 4 → ℝ) :
    0 < (GetManipulatorDynamics p q qd).1.det := by
  rw [det_massMatrix]
  have hIb : 0 < p.Ib := by
    unfold QuadrotorPendulum.Ib
    positivity
  have hI1 : 0 < p.I1 := by
    unfold QuadrotorPendulum.I1
    positivity
  have hmt : 0 < p.mb + p.m1 := by linarith
  have h2 : 0 < (p.mb + p.m1) * p.I1 + p.m1 * p.mb * p.l1 ^ 2 := by
    have := mul_pos hmt hI1
    have := mul_pos (mul_pos hm1 hmb) (pow_pos hl1 2)
    linarith
  exact mul_pos hIb (mul_pos hmt h2)

/-- C1: for every command `u` (clamped componentwise, strict mode not
requested) and every state `x = [q; qd]`, as long as the mass-matrix
solve is possible, `evaluate_f` returns `Except.ok` with the written-back
clamped command and the derivative `[qd; qdd]`, where `qdd` solves the
manipulator equation `M qdd = tauG + B u_clamped - C qd` with
`(M, C, tauG, B) = GetManipulatorDynamics(q, qd)`. -/
theorem evaluate_f_solves_manipulator (p : QuadrotorPendulum) (u : Fin 2 → ℝ)
    (x : Fin 8 → ℝ)
    (hdet : (GetManipulatorDynamics p (qOf x) (qdOf x)).1.det ≠ 0) :
    ∃ qdd : Fin 4 → ℝ,
      evaluate_f p u x false =
        Except.ok ((fun i => clampInput p.input_max (u i)), joinVec (qdOf x) qdd) ∧
      (GetManipulatorDynamics p (qOf x) (qdOf x)).1 *ᵥ qdd = fun i =>
        (GetManipulatorDynamics p (qOf x) (qdOf x)).2.2.1 i
          + ((GetManipulatorDynamics p (qOf x) (qdOf x)).2.2.2 *ᵥ
              fun j => clampInput p.input_max (u j)) i
          - ((GetManipulatorDynamics p (qOf x) (qdOf x)).2.1 *ᵥ qdOf x) i := by
  rw [evaluate_f_nonstrict]
  simp only [dynamicsFrom]
  rw [if_neg hdet]
  refine ⟨_, rfl, ?_⟩
  rw [Matrix.mulVec_mulVec, Matrix.mul_nonsing_inv _ (isUnit_iff_ne_zero.2 hdet),
    Matrix.one_mulVec]

/-- Witness for C1 at the default parameters, `x = 0`, `u = 0`. -/
theorem evaluate_f_solves_manipulator_witness :
    (GetManipulatorDynamics (mkQuadrotorPendulum 1 (1 / 5) 2 (1 / 5) 10 10)
        (qOf fun _ => 0) (qdOf fun _ => 0)).1.det ≠ 0 ∧
      (∃ qdd : Fin 4 → ℝ,
        evaluate_f (mkQuadrotorPendulum 1 (1 / 5) 2 (1 / 5) 10 10) ![0, 0]
            (fun _ => 0) false =
          Except.ok ((fun i =>
            clampInput (mkQuadrotorPendulum 1 (1 / 5) 2 (1 / 5) 10 10).input_max
              (![0, 0] i)),
            joinVec (qdOf fun _ => 0) qdd) ∧
        (GetManipulatorDynamics (mkQuadrotorPendulum 1 (1 / 5) 2 (1 / 5) 10 10)
            (qOf fun _ => 0) (qdOf fun _ => 0)).1 *ᵥ qdd = fun i =>
          (GetManipulatorDynamics (mkQuadrotorPendulum 1 (1 / 5) 2 (1 / 5) 10 10)
              (qOf fun _ => 0) (qdOf fun _ => 0)).2.2.1 i
            + ((GetManipulatorDynamics (mkQuadrotorPendulum 1 (1 / 5) 2 (1 / 5) 10 10)
                (qOf fun _ => 0) (qdOf fun _ => 0)).2.2.2 *ᵥ
                fun j =>
                  clampInput (mkQuadrotorPendulum 1 (1 / 5) 2 (1 / 5) 10 10).input_max
                    (![0, 0] j)) i
            - ((GetManipulatorDynamics (mkQuadrotorPendulum 1 (1 / 5) 2 (1 / 5) 10 10)
                (qOf fun _ => 0) (qdOf fun _ => 0)).2.1 *ᵥ qdOf fun _ => 0) i) := by
  have hd : (GetManipulatorDynamics (mkQuadrotorPendulum 1 (1 / 5) 2 (1 / 5) 10 10)
      (qOf fun _ => 0) (qdOf fun _ => 0)).1.det ≠ 0 := by
    rw [det_massMatrix]
    norm_num [mkQuadrotorPendulum, QuadrotorPendulum.Ib, QuadrotorPendulum.I1]
  exact ⟨hd, evaluate_f_solves_manipulator _ _ _ hd⟩

/-- C7: for every physically valid parameter set (all masses and lengths
strictly positive) and every configuration (any `θ_link`) and velocity,
the mass matrix `M` returned by `GetManipulatorDynamics` is symmetric and
positive-definite. -/
theorem massMatrix_symm_posDef (p : QuadrotorPendulum) (hmb : 0 < p.mb)
    (hlb : 0 < p.lb) (hm1 : 0 < p.m1) (hl1 : 0 < p.l1) (q qd : Fin 4 → ℝ) :
    (GetManipulatorDynamics p q qd).1ᵀ = (GetManipulatorDynamics p q qd).1 ∧
      (GetManipulatorDynamics p q qd).1.PosDef := by
  have hIb : 0 < p.Ib := by
    unfold QuadrotorPendulum.Ib
    positivity
  have hI1 : 0 < p.I1 := by
    unfold QuadrotorPendulum.I1
    positivity
  have hmt : 0 < p.mb + p.m1 := by linarith
  have hc4 : 0 < (p.mb + p.m1) * p.I1 + p.m1 * p.mb * p.l1 ^ 2 := by
    have := mul_pos hmt hI1
    have := mul_pos (mul_pos hm1 hmb) (pow_pos hl1 2)
    linarith
  have hsym : (GetManipulatorDynamics p q qd).1ᵀ = (GetManipulatorDynamics p q qd).1 := by
    ext i j
    fin_cases i <;> fin_cases j <;> rfl
  refine ⟨hsym, ?_, fun v hv => ?_⟩
  · ext i j
    simp only [Matrix.conjTranspose_apply, star_trivial]
    exact (congrFun (congrFun hsym j) i).symm
  · have hkey : (p.mb + p.m1) *
        dotProduct (star v) ((GetManipulatorDynamics p q qd).1 *ᵥ v) =
        ((p.mb + p.m1) * v 0 + p.m1 * p.l1 * Real.cos (q 3) * v 3) ^ 2
          + ((p.mb + p.m1) * v 1 + p.m1 * p.l1 * Real.sin (q 3) * v 3) ^ 2
          + (p.mb + p.m1) * p.Ib * v 2 ^ 2
          + ((p.mb + p.m1) * p.I1 + p.m1 * p.mb * p.l1 ^ 2) * v 3 ^ 2 := by
      simp [GetManipulatorDynamics, dotProduct, Matrix.mulVec, Fin.sum_univ_four]
      linear_combination (-((p.m1 * p.l1) ^ 2 * v 3 ^ 2)) *
        Real.sin_sq_add_cos_sq (q 3)
    have hT : 0 < ((p.mb + p.m1) * v 0 + p.m1 * p.l1 * Real.cos (q 3) * v 3) ^ 2
          + ((p.mb + p.m1) * v 1 + p.m1 * p.l1 * Real.sin (q 3) * v 3) ^ 2
          + (p.mb + p.m1) * p.Ib * v 2 ^ 2
          + ((p.mb + p.m1) * p.I1 + p.m1 * p.mb * p.l1 ^ 2) * v 3 ^ 2 := by
      by_cases h3 : v 3 = 0
      · simp only [h3, mul_zero, add_zero, ne_eq, OfNat.ofNat_ne_zero,
          not_false_eq_true, zero_pow]
        by_cases h2 : v 2 = 0
        · have h01 : v 0 ≠ 0 ∨ v 1 ≠ 0 := by
            by_contra hcon
            push_neg at hcon
            apply hv
            funext i
            fin_cases i
            · exact hcon.1
            · exact hcon.2
            · exact h2
            · exact h3
          rcases h01 with h | h
          · have hne : (p.mb + p.m1) * v 0 ≠ 0 := mul_ne_zero (ne_of_gt hmt) h
            nlinarith [sq_pos_of_ne_zero hne, sq_nonneg ((p.mb + p.m1) * v 1),
              mul_nonneg (mul_pos hmt hIb).le (sq_nonneg (v 2))]
          · have hne : (p.mb + p.m1) * v 1 ≠ 0 := mul_ne_zero (ne_of_gt hmt) h
            nlinarith [sq_pos_of_ne_zero hne, sq_nonneg ((p.mb + p.m1) * v 0),
              mul_nonneg (mul_pos hmt hIb).le (sq_nonneg (v 2))]
        · nlinarith [sq_nonneg ((p.mb + p.m1) * v 0), sq_nonneg ((p.mb + p.m1) * v 1),
            mul_pos (mul_pos hmt hIb) (sq_pos_of_ne_zero h2)]
      · nlinarith [sq_nonneg ((p.mb + p.m1) * v 0 + p.m1 * p.l1 * Real.cos (q 3) * v 3),
          sq_nonneg ((p.mb + p.m1) * v 1 + p.m1 * p.l1 * Real.sin (q 3) * v 3),
          mul_nonneg (mul_pos hmt hIb).le (sq_nonneg (v 2)),
          mul_pos hc4 (sq_pos_of_ne_zero h3)]
    have hprod : 0 < (p.mb + p.m1) *
        dotProduct (star v) ((GetManipulatorDynamics p q qd).1 *ᵥ v) := by
      rw [hkey]
      exact hT
    rcases mul_pos_iff.1 hprod with ⟨_, hgoal⟩ | ⟨hneg, _⟩
    · exact hgoal
    · linarith

/-- Witness for C7 at the default parameters and the zero configuration. -/
theorem massMatrix_symm_posDef_witness :
    (0 < (mkQuadrotorPendulum 1 (1 / 5) 2 (1 / 5) 10 10).mb ∧
        0 < (mkQuadrotorPendulum 1 (1 / 5) 2 (1 / 5) 10 10).lb ∧
        0 < (mkQuadrotorPendulum 1 (1 / 5) 2 (1 / 5) 10 10).m1 ∧
        0 < (mkQuadrotorPendulum 1 (1 / 5) 2 (1 / 5) 10 10).l1) ∧
      ((GetManipulatorDynamics (mkQuadrotorPendulum 1 (1 / 5) 2 (1 / 5) 10 10)
          (qOf fun _ => 0) (qdOf fun _ => 0)).1ᵀ =
        (GetManipulatorDynamics (mkQuadrotorPendulum 1 (1 / 5) 2 (1 / 5) 10 10)
          (qOf fun _ => 0) (qdOf fun _ => 0)).1 ∧
        (GetManipulatorDynamics (mkQuadrotorPendulum 1 (1 / 5) 2 (1 / 5) 10 10)
          (qOf fun _ => 0) (qdOf fun _ => 0)).1.PosDef) :=
  ⟨⟨by norm_num [mkQuadrotorPendulum], by norm_num [mkQuadrotorPendulum],
      by norm_num [mkQuadrotorPendulum], by norm_num [mkQuadrotorPendulum]⟩,
    massMatrix_symm_posDef _ (by norm_num [mkQuadrotorPendulum])
      (by norm_num [mkQuadrotorPendulum]) (by norm_num [mkQuadrotorPendulum])
      (by norm_num [mkQuadrotorPendulum]) _ _⟩


/-- The configuration-independent denominator `(mb+m1)*I1 + m1*mb*l1^2`
of the closed-form solution of the manipulator equation (equal to
`(mb+m1)` times the reduced inertia `I` of `GetLinearizedDynamics`). -/

noncomputable def Kred (p : QuadrotorPendulum) : ℝ :=
  (p.mb + p.m1) * p.I1 + p.m1 * p.mb * p.l1 ^ 2


/-- The closed-form solution of the linear system
`M qdd = tauG + B u - C qd` solved inside `evaluate_f` (derived by
Gaussian elimination; `massMatrix_mulVec_qddExplicit` proves it correct). -/

noncomputable def qddExplicit (p : QuadrotorPendulum) (u : Fin 2 → ℝ) (x : Fin 8 → ℝ) :
    Fin 4 → ℝ :=
  ![-(u 0 + u 1) * Real.sin (x 2) / (p.mb + p.m1)
      + p.m1 * p.l1 * Real.sin (x 3) * x 7 ^ 2 / (p.mb + p.m1)
      + (p.m1 * p.l1) ^ 2 * Real.cos (x 3) * Real.sin (x 3 - x 2) * (u 0 + u 1)
          / ((p.mb + p.m1) * Kred p),
    -p.g + (u 0 + u 1) * Real.cos (x 2) / (p.mb + p.m1)
      - p.m1 * p.l1 * Real.cos (x 3) * x 7 ^ 2 / (p.mb + p.m1)
      + (p.m1 * p.l1) ^ 2 * Real.sin (x 3) * Real.sin (x 3 - x 2) * (u 0 + u 1)
          / ((p.mb + p.m1) * Kred p),
    p.lb * (u 1 - u 0) / p.Ib,
    -(p.m1 * p.l1) * (u 0 + u 1) * Real.sin (x 3 - x 2) / Kred p]


/-- Values of `qOf` at the individual indices. -/
theorem qOf_zero (x : Fin 8 → ℝ) : qOf x 0 = x 0 := rfl

theorem qOf_one (x : Fin 8 → ℝ) : qOf x 1 = x 1 := rfl

theorem qdOf_zero (x : Fin 8 → ℝ) : qdOf x 0 = x 4 := rfl

theorem qdOf_one (x : Fin 8 → ℝ) : qdOf x 1 = x 5 := rfl

theorem qdOf_two (x : Fin 8 → ℝ) : qdOf x 2 = x 6 := rfl

theorem qOf_two (x : Fin 8 → ℝ) : qOf x 2 = x 2 := rfl
theorem qOf_three (x : Fin 8 → ℝ) : qOf x 3 = x 3 := rfl
theorem qdOf_three (x : Fin 8 → ℝ) : qdOf x 3 = x 7 := rfl

theorem massMatrix_mulVec_qddExplicit (p : QuadrotorPendulum)
    (hmt : p.mb + p.m1 ≠ 0) (hK : Kred p ≠ 0) (hIb : p.Ib ≠ 0)
    (u : Fin 2 → ℝ) (x : Fin 8 → ℝ) :
    (GetManipulatorDynamics p (qOf x) (qdOf x)).1 *ᵥ qddExplicit p u x = fun i =>
      (GetManipulatorDynamics p (qOf x) (qdOf x)).2.2.1 i
        + ((GetManipulatorDynamics p (qOf x) (qdOf x)).2.2.2 *ᵥ u) i
        - ((GetManipulatorDynamics p (qOf x) (qdOf x)).2.1 *ᵥ qdOf x) i := by
  have e0 : ((GetManipulatorDynamics p (qOf x) (qdOf x)).1 *ᵥ qddExplicit p u x) 0 =
      (GetManipulatorDynamics p (qOf x) (qdOf x)).2.2.1 0
        + ((GetManipulatorDynamics p (qOf x) (qdOf x)).2.2.2 *ᵥ u) 0
        - ((GetManipulatorDynamics p (qOf x) (qdOf x)).2.1 *ᵥ qdOf x) 0 := by
    simp [GetManipulatorDynamics, qddExplicit, Matrix.mulVec, dotProduct,
      Fin.sum_univ_four, Fin.sum_univ_two, qOf_two, qOf_three, qdOf_three,
      Matrix.vecHead, Matrix.vecTail, Real.sin_sub]
    field_simp
    ring
  have e1 : ((GetManipulatorDynamics p (qOf x) (qdOf x)).1 *ᵥ qddExplicit p u x) 1 =
      (GetManipulatorDynamics p (qOf x) (qdOf x)).2.2.1 1
        + ((GetManipulatorDynamics p (qOf x) (qdOf x)).2.2.2 *ᵥ u) 1
        - ((GetManipulatorDynamics p (qOf x) (qdOf x)).2.1 *ᵥ qdOf x) 1 := by
    simp [GetManipulatorDynamics, qddExplicit, Matrix.mulVec, dotProduct,
      Fin.sum_univ_four, Fin.sum_univ_two, qOf_two, qOf_three, qdOf_three,
      Matrix.vecHead, Matrix.vecTail, Real.sin_sub]
    field_simp
    ring
  have e2 : ((GetManipulatorDynamics p (qOf x) (qdOf x)).1 *ᵥ qddExplicit p u x) 2 =
      (GetManipulatorDynamics p (qOf x) (qdOf x)).2.2.1 2
        + ((GetManipulatorDynamics p (qOf x) (qdOf x)).2.2.2 *ᵥ u) 2
        - ((GetManipulatorDynamics p (qOf x) (qdOf x)).2.1 *ᵥ qdOf x) 2 := by
    simp [GetManipulatorDynamics, qddExplicit, Matrix.mulVec, dotProduct,
      Fin.sum_univ_four, Fin.sum_univ_two, qOf_two, qOf_three, qdOf_three,
      Matrix.vecHead, Matrix.vecTail, Real.sin_sub]
    field_simp
    ring
  have e3 : ((GetManipulatorDynamics p (qOf x) (qdOf x)).1 *ᵥ qddExplicit p u x) 3 =
      (GetManipulatorDynamics p (qOf x) (qdOf x)).2.2.1 3
        + ((GetManipulatorDynamics p (qOf x) (qdOf x)).2.2.2 *ᵥ u) 3
        - ((GetManipulatorDynamics p (qOf x) (qdOf x)).2.1 *ᵥ qdOf x) 3 := by
    simp [GetManipulatorDynamics, qddExplicit, Matrix.mulVec, dotProduct,
      Fin.sum_univ_four, Fin.sum_univ_two, qOf_two, qOf_three, qdOf_three,
      Matrix.vecHead, Matrix.vecTail, Real.sin_sub]
    have hKdef : Kred p = (p.mb + p.m1) * p.I1 + p.m1 * p.mb * p.l1 ^ 2 := rfl
    field_simp
    linear_combination (Kred p * p.m1 ^ 3 * p.l1 ^ 3 * (p.mb + p.m1) * (u 0 + u 1) *
        (Real.sin (x 3) * Real.cos (x 2) - Real.cos (x 3) * Real.sin (x 2))) *
        Real.sin_sq_add_cos_sq (x 3)
      + (Kred p * p.m1 * p.l1 * (p.mb + p.m1) * (u 0 + u 1) *
        (Real.sin (x 3) * Real.cos (x 2) - Real.cos (x 3) * Real.sin (x 2))) * hKdef
  funext i
  fin_cases i
  · exact e0
  · exact e1
  · exact e2
  · exact e3

/-- The state derivative actually returned by `evaluate_f` in non-strict
mode (`0` on the error path, which valid parameters rule out). -/
noncomputable def fFun (p : QuadrotorPendulum) (u : Fin 2 → ℝ) (x : Fin 8 → ℝ) :
    Fin 8 → ℝ :=
  match evaluate_f p u x false with
  | Except.ok r => r.2
  | Except.error _ => 0

/-- Clamping an in-range value is the identity. -/
theorem clampInput_eq_self (m v : ℝ) (h : |v| ≤ m) : clampInput m v = v := by
  unfold clampInput
  rcases abs_le.1 h with ⟨h1, h2⟩
  rw [min_eq_right h2, max_eq_right h1]

/-- Positivity of `Kred` for valid parameters. -/
theorem Kred_pos (p : QuadrotorPendulum) (hmb : 0 < p.mb) (hm1 : 0 < p.m1)
    (hl1 : 0 < p.l1) : 0 < Kred p := by
  have hI1 : 0 < p.I1 := by
    unfold QuadrotorPendulum.I1
    positivity
  have h1 := mul_pos (show (0:ℝ) < p.mb + p.m1 by linarith) hI1
  have h2 := mul_pos (mul_pos hm1 hmb) (pow_pos hl1 2)
  unfold Kred
  linarith

/-- For valid parameters, the non-strict `evaluate_f` succeeds and its
derivative part is exactly the closed-form solution at the clamped input. -/
theorem evaluate_f_eq_explicit (p : QuadrotorPendulum) (hmb : 0 < p.mb)
    (hlb : 0 < p.lb) (hm1 : 0 < p.m1) (hl1 : 0 < p.l1) (u : Fin 2 → ℝ)
    (x : Fin 8 → ℝ) :
    evaluate_f p u x false =
      Except.ok ((fun i => clampInput p.input_max (u i)),
        joinVec (qdOf x)
          (qddExplicit p (fun i => clampInput p.input_max (u i)) x)) := by
  have hdet := det_massMatrix_pos p hmb hlb hm1 hl1 (qOf x) (qdOf x)
  have hmt : p.mb + p.m1 ≠ 0 := by positivity
  have hK : Kred p ≠ 0 := ne_of_gt (Kred_pos p hmb hm1 hl1)
  have hIb : 0 < p.Ib := by
    unfold QuadrotorPendulum.Ib
    positivity
  rw [evaluate_f_nonstrict]
  simp only [dynamicsFrom]
  rw [if_neg (ne_of_gt hdet)]
  simp only [Except.ok.injEq, Prod.mk.injEq, true_and]
  have hsolve := massMatrix_mulVec_qddExplicit p hmt hK (ne_of_gt hIb)
    (fun i => clampInput p.input_max (u i)) x
  rw [← hsolve, Matrix.mulVec_mulVec,
    Matrix.nonsing_inv_mul _ (isUnit_iff_ne_zero.2 (ne_of_gt hdet)),
    Matrix.one_mulVec]

/-- For valid parameters, `fFun` equals the closed-form derivative at the
clamped input. -/
theorem fFun_eq_explicit (p : QuadrotorPendulum) (hmb : 0 < p.mb) (hlb : 0 < p.lb)
    (hm1 : 0 < p.m1) (hl1 : 0 < p.l1) (u : Fin 2 → ℝ) (x : Fin 8 → ℝ) :
    fFun p u x =
      joinVec (qdOf x)
        (qddExplicit p (fun i => clampInput p.input_max (u i)) x) := by
  unfold fFun
  rw [evaluate_f_eq_explicit p hmb hlb hm1 hl1 u x]

/-- Entry evaluation for length-two vector literals. -/
theorem cons2_0 {α : Type*} (a0 a1 : α) : ![a0, a1] 0 = a0 := rfl

theorem cons2_1 {α : Type*} (a0 a1 : α) : ![a0, a1] 1 = a1 := rfl

/-- Entry evaluation for length-four vector literals. -/
theorem cons4_0 {α : Type*} (a0 a1 a2 a3 : α) : ![a0, a1, a2, a3] 0 = a0 := rfl

theorem cons4_1 {α : Type*} (a0 a1 a2 a3 : α) : ![a0, a1, a2, a3] 1 = a1 := rfl

theorem cons4_2 {α : Type*} (a0 a1 a2 a3 : α) : ![a0, a1, a2, a3] 2 = a2 := rfl

theorem cons4_3 {α : Type*} (a0 a1 a2 a3 : α) : ![a0, a1, a2, a3] 3 = a3 := rfl

/-- Entry evaluation for length-eight vector literals. -/
theorem cons8_0 {α : Type*} (a0 a1 a2 a3 a4 a5 a6 a7 : α) :
    ![a0, a1, a2, a3, a4, a5, a6, a7] 0 = a0 := rfl

theorem cons8_1 {α : Type*} (a0 a1 a2 a3 a4 a5 a6 a7 : α) :
    ![a0, a1, a2, a3, a4, a5, a6, a7] 1 = a1 := rfl

theorem cons8_2 {α : Type*} (a0 a1 a2 a3 a4 a5 a6 a7 : α) :
    ![a0, a1, a2, a3, a4, a5, a6, a7] 2 = a2 := rfl

theorem cons8_3 {α : Type*} (a0 a1 a2 a3 a4 a5 a6 a7 : α) :
    ![a0, a1, a2, a3, a4, a5, a6, a7] 3 = a3 := rfl

theorem cons8_4 {α : Type*} (a0 a1 a2 a3 a4 a5 a6 a7 : α) :
    ![a0, a1, a2, a3, a4, a5, a6, a7] 4 = a4 := rfl

theorem cons8_5 {α : Type*} (a0 a1 a2 a3 a4 a5 a6 a7 : α) :
    ![a0, a1, a2, a3, a4, a5, a6, a7] 5 = a5 := rfl

theorem cons8_6 {α : Type*} (a0 a1 a2 a3 a4 a5 a6 a7 : α) :
    ![a0, a1, a2, a3, a4, a5, a6, a7] 6 = a6 := rfl

theorem cons8_7 {α : Type*} (a0 a1 a2 a3 a4 a5 a6 a7 : α) :
    ![a0, a1, a2, a3, a4, a5, a6, a7] 7 = a7 := rfl

/-- The continuous linear functional `w ↦ w.1 k` (input coordinate). -/
noncomputable def coordU (k : Fin 2) : ((Fin 2 → ℝ) × (Fin 8 → ℝ)) →L[ℝ] ℝ :=
  (ContinuousLinearMap.proj k).comp (ContinuousLinearMap.fst ℝ (Fin 2 → ℝ) (Fin 8 → ℝ))

/-- The continuous linear functional `w ↦ w.2 j` (state coordinate). -/
noncomputable def coordX (j : Fin 8) : ((Fin 2 → ℝ) × (Fin 8 → ℝ)) →L[ℝ] ℝ :=
  (ContinuousLinearMap.proj j).comp (ContinuousLinearMap.snd ℝ (Fin 2 → ℝ) (Fin 8 → ℝ))

/-- The candidate derivative of `Derivative` at `(u_f, x_f)` assembled
from the matrices of `GetLinearizedDynamics`:
`δ ↦ A δx + B δu` as a continuous linear map. -/
noncomputable def linearizedMap (p : QuadrotorPendulum) (u_f : Fin 2 → ℝ)
    (x_f : Fin 8 → ℝ) : ((Fin 2 → ℝ) × (Fin 8 → ℝ)) →L[ℝ] (Fin 8 → ℝ) :=
  ContinuousLinearMap.pi fun i =>
    (∑ j : Fin 8, (GetLinearizedDynamics p u_f x_f).1 i j • coordX j)
      + ∑ k : Fin 2, (GetLinearizedDynamics p u_f x_f).2 i k • coordU k

/-- Applying `linearizedMap` to a perturbation gives `A δx + B δu`. -/
theorem linearizedMap_apply (p : QuadrotorPendulum) (u_f : Fin 2 → ℝ)
    (x_f : Fin 8 → ℝ) (δ : (Fin 2 → ℝ) × (Fin 8 → ℝ)) :
    linearizedMap p u_f x_f δ = fun i =>
      ((GetLinearizedDynamics p u_f x_f).1 *ᵥ δ.2) i
        + ((GetLinearizedDynamics p u_f x_f).2 *ᵥ δ.1) i := by
  funext i
  simp [linearizedMap, coordX, coordU, Matrix.mulVec, dotProduct]


/-- Row 0 of the linearization is the derivative of component 0 of the
explicit dynamics (the velocity pass-through `w.2 4`). -/
theorem hasFDeriv_comp0 (p : QuadrotorPendulum) (u_f : Fin 2 → ℝ) (x_f : Fin 8 → ℝ) :
    HasFDerivAt (fun w : (Fin 2 → ℝ) × (Fin 8 → ℝ) => w.2 4)
      ((∑ j : Fin 8, (GetLinearizedDynamics p u_f x_f).1 0 j • coordX j)
        + ∑ k : Fin 2, (GetLinearizedDynamics p u_f x_f).2 0 k • coordU k) (u_f, x_f) := by
  refine (coordX 4).hasFDerivAt.congr_fderiv (ContinuousLinearMap.ext fun δ => ?_)
  simp [GetLinearizedDynamics, coordX, coordU, Fin.sum_univ_eight, Fin.sum_univ_two,
    Matrix.of_apply, cons8_0, cons8_1, cons8_2, cons8_3, cons8_4, cons8_5, cons8_6,
    cons8_7, cons2_0, cons2_1, qOf_two, qOf_three, qdOf_three,
    QuadrotorPendulum.alpha, QuadrotorPendulum.Ired,
    Real.sin_sub, Real.cos_sub, Real.sin_two_mul, Real.cos_two_mul, smul_eq_mul,
    -Matrix.cons_val']

/-- Row 1 of the linearization is the derivative of component 1 of the
explicit dynamics (the velocity pass-through `w.2 5`). -/
theorem hasFDeriv_comp1 (p : QuadrotorPendulum) (u_f : Fin 2 → ℝ) (x_f : Fin 8 → ℝ) :
    HasFDerivAt (fun w : (Fin 2 → ℝ) × (Fin 8 → ℝ) => w.2 5)
      ((∑ j : Fin 8, (GetLinearizedDynamics p u_f x_f).1 1 j • coordX j)
        + ∑ k : Fin 2, (GetLinearizedDynamics p u_f x_f).2 1 k • coordU k) (u_f, x_f) := by
  refine (coordX 5).hasFDerivAt.congr_fderiv (ContinuousLinearMap.ext fun δ => ?_)
  simp [GetLinearizedDynamics, coordX, coordU, Fin.sum_univ_eight, Fin.sum_univ_two,
    Matrix.of_apply, cons8_0, cons8_1, cons8_2, cons8_3, cons8_4, cons8_5, cons8_6,
    cons8_7, cons2_0, cons2_1, qOf_two, qOf_three, qdOf_three,
    QuadrotorPendulum.alpha, QuadrotorPendulum.Ired,
    Real.sin_sub, Real.cos_sub, Real.sin_two_mul, Real.cos_two_mul, smul_eq_mul,
    -Matrix.cons_val']

/-- Row 2 of the linearization is the derivative of component 2 of the
explicit dynamics (the velocity pass-through `w.2 6`). -/
theorem hasFDeriv_comp2 (p : QuadrotorPendulum) (u_f : Fin 2 → ℝ) (x_f : Fin 8 → ℝ) :
    HasFDerivAt (fun w : (Fin 2 → ℝ) × (Fin 8 → ℝ) => w.2 6)
      ((∑ j : Fin 8, (GetLinearizedDynamics p u_f x_f).1 2 j • coordX j)
        + ∑ k : Fin 2, (GetLinearizedDynamics p u_f x_f).2 2 k • coordU k) (u_f, x_f) := by
  refine (coordX 6).hasFDerivAt.congr_fderiv (ContinuousLinearMap.ext fun δ => ?_)
  simp [GetLinearizedDynamics, coordX, coordU, Fin.sum_univ_eight, Fin.sum_univ_two,
    Matrix.of_apply, cons8_0, cons8_1, cons8_2, cons8_3, cons8_4, cons8_5, cons8_6,
    cons8_7, cons2_0, cons2_1, qOf_two, qOf_three, qdOf_three,
    QuadrotorPendulum.alpha, QuadrotorPendulum.Ired,
    Real.sin_sub, Real.cos_sub, Real.sin_two_mul, Real.cos_two_mul, smul_eq_mul,
    -Matrix.cons_val']

/-- Row 3 of the linearization is the derivative of component 3 of the
explicit dynamics (the velocity pass-through `w.2 7`). -/
theorem hasFDeriv_comp3 (p : QuadrotorPendulum) (u_f : Fin 2 → ℝ) (x_f : Fin 8 → ℝ) :
    HasFDerivAt (fun w : (Fin 2 → ℝ) × (Fin 8 → ℝ) => w.2 7)
      ((∑ j : Fin 8, (GetLinearizedDynamics p u_f x_f).1 3 j • coordX j)
        + ∑ k : Fin 2, (GetLinearizedDynamics p u_f x_f).2 3 k • coordU k) (u_f, x_f) := by
  refine (coordX 7).hasFDerivAt.congr_fderiv (ContinuousLinearMap.ext fun δ => ?_)
  simp [GetLinearizedDynamics, coordX, coordU, Fin.sum_univ_eight, Fin.sum_univ_two,
    Matrix.of_apply, cons8_0, cons8_1, cons8_2, cons8_3, cons8_4, cons8_5, cons8_6,
    cons8_7, cons2_0, cons2_1, qOf_two, qOf_three, qdOf_three,
    QuadrotorPendulum.alpha, QuadrotorPendulum.Ired,
    Real.sin_sub, Real.cos_sub, Real.sin_two_mul, Real.cos_two_mul, smul_eq_mul,
    -Matrix.cons_val']

/-- Row 6: the body-angle acceleration `lb*(u1-u0)/Ib` is exactly linear. -/
theorem hasFDeriv_comp6 (p : QuadrotorPendulum) (u_f : Fin 2 → ℝ) (x_f : Fin 8 → ℝ) :
    HasFDerivAt (fun w : (Fin 2 → ℝ) × (Fin 8 → ℝ) => p.lb * (w.1 1 - w.1 0) / p.Ib)
      ((∑ j : Fin 8, (GetLinearizedDynamics p u_f x_f).1 6 j • coordX j)
        + ∑ k : Fin 2, (GetLinearizedDynamics p u_f x_f).2 6 k • coordU k) (u_f, x_f) := by
  simp only [div_eq_mul_inv, pow_two]
  have hd : HasFDerivAt (fun w : (Fin 2 → ℝ) × (Fin 8 → ℝ) => w.1 1 - w.1 0)
      (coordU 1 - coordU 0) (u_f, x_f) :=
    (coordU 1).hasFDerivAt.sub (coordU 0).hasFDerivAt
  refine ((hd.const_mul p.lb).mul_const (p.Ib)⁻¹).congr_fderiv
    (ContinuousLinearMap.ext fun δ => ?_)
  simp [GetLinearizedDynamics, coordX, coordU, Fin.sum_univ_eight, Fin.sum_univ_two,
    Matrix.of_apply, cons8_0, cons8_1, cons8_2, cons8_3, cons8_4, cons8_5, cons8_6,
    cons8_7, cons2_0, cons2_1, qOf_two, qOf_three, qdOf_three,
    QuadrotorPendulum.alpha, QuadrotorPendulum.Ired,
    Real.sin_sub, Real.cos_sub, Real.sin_two_mul, Real.cos_two_mul, smul_eq_mul,
    -Matrix.cons_val']
  ring

/-- Row 7: the pendulum-angle acceleration component. -/
theorem hasFDeriv_comp7 (p : QuadrotorPendulum) (hmb : 0 < p.mb) (hm1 : 0 < p.m1)
    (hl1 : 0 < p.l1) (u_f : Fin 2 → ℝ) (x_f : Fin 8 → ℝ) :
    HasFDerivAt (fun w : (Fin 2 → ℝ) × (Fin 8 → ℝ) =>
        -(p.m1 * p.l1) * (w.1 0 + w.1 1) * Real.sin (w.2 3 - w.2 2) / Kred p)
      ((∑ j : Fin 8, (GetLinearizedDynamics p u_f x_f).1 7 j • coordX j)
        + ∑ k : Fin 2, (GetLinearizedDynamics p u_f x_f).2 7 k • coordU k) (u_f, x_f) := by
  have hmt : p.m1 + p.mb ≠ 0 := by positivity
  have hK : Kred p ≠ 0 := ne_of_gt (Kred_pos p hmb hm1 hl1)
  have hKdef : Kred p = (p.mb + p.m1) * p.I1 + p.m1 * p.mb * p.l1 ^ 2 := rfl
  have hK2 : p.m1 * p.l1 ^ 2 * p.mb + p.m1 * p.I1 + p.I1 * p.mb ≠ 0 := by
    rw [show p.m1 * p.l1 ^ 2 * p.mb + p.m1 * p.I1 + p.I1 * p.mb =
      (p.mb + p.m1) * p.I1 + p.m1 * p.mb * p.l1 ^ 2 from by ring]
    exact hKdef ▸ hK
  have hU : HasFDerivAt (fun w : (Fin 2 → ℝ) × (Fin 8 → ℝ) => w.1 0 + w.1 1)
      (coordU 0 + coordU 1) (u_f, x_f) :=
    (coordU 0).hasFDerivAt.add (coordU 1).hasFDerivAt
  have hd : HasFDerivAt (fun w : (Fin 2 → ℝ) × (Fin 8 → ℝ) => w.2 3 - w.2 2)
      (coordX 3 - coordX 2) (u_f, x_f) :=
    (coordX 3).hasFDerivAt.sub (coordX 2).hasFDerivAt
  simp only [div_eq_mul_inv, pow_two]
  refine (((hU.const_mul (-(p.m1 * p.l1))).mul hd.sin).mul_const
    (Kred p)⁻¹).congr_fderiv (ContinuousLinearMap.ext fun δ => ?_)
  simp [GetLinearizedDynamics, coordX, coordU, Fin.sum_univ_eight, Fin.sum_univ_two,
    Matrix.of_apply, cons8_0, cons8_1, cons8_2, cons8_3, cons8_4, cons8_5, cons8_6,
    cons8_7, cons2_0, cons2_1, qOf_two, qOf_three, qdOf_three,
    QuadrotorPendulum.alpha, QuadrotorPendulum.Ired,
    Real.sin_sub, Real.cos_sub, Real.sin_two_mul, Real.cos_two_mul, smul_eq_mul,
    -Matrix.cons_val']
  rw [hKdef]
  field_simp
  ring

set_option maxHeartbeats 2000000 in
set_option maxHeartbeats 2000000 in
/-- Row 4: the horizontal acceleration component. -/
theorem hasFDeriv_comp4 (p : QuadrotorPendulum) (hmb : 0 < p.mb) (hm1 : 0 < p.m1)
    (hl1 : 0 < p.l1) (u_f : Fin 2 → ℝ) (x_f : Fin 8 → ℝ) :
    HasFDerivAt (fun w : (Fin 2 → ℝ) × (Fin 8 → ℝ) =>
        -(w.1 0 + w.1 1) * Real.sin (w.2 2) / (p.mb + p.m1)
          + p.m1 * p.l1 * Real.sin (w.2 3) * w.2 7 ^ 2 / (p.mb + p.m1)
          + (p.m1 * p.l1) ^ 2 * Real.cos (w.2 3) * Real.sin (w.2 3 - w.2 2) * (w.1 0 + w.1 1)
              / ((p.mb + p.m1) * Kred p))
      ((∑ j : Fin 8, (GetLinearizedDynamics p u_f x_f).1 4 j • coordX j)
        + ∑ k : Fin 2, (GetLinearizedDynamics p u_f x_f).2 4 k • coordU k) (u_f, x_f) := by
  have hmt : p.m1 + p.mb ≠ 0 := by positivity
  have hmt2 : p.mb + p.m1 ≠ 0 := by positivity
  have hK : Kred p ≠ 0 := ne_of_gt (Kred_pos p hmb hm1 hl1)
  have hKdef : Kred p = (p.mb + p.m1) * p.I1 + p.m1 * p.mb * p.l1 ^ 2 := rfl
  have hK2 : p.m1 * p.l1 ^ 2 * p.mb + p.m1 * p.I1 + p.I1 * p.mb ≠ 0 := by
    rw [show p.m1 * p.l1 ^ 2 * p.mb + p.m1 * p.I1 + p.I1 * p.mb =
      (p.mb + p.m1) * p.I1 + p.m1 * p.mb * p.l1 ^ 2 from by ring]
    exact hKdef ▸ hK
  have hK3 : p.mb * p.m1 * p.I1 * 2 + p.mb * p.m1 ^ 2 * p.l1 ^ 2
      + p.mb ^ 2 * p.m1 * p.l1 ^ 2 + p.mb ^ 2 * p.I1 + p.m1 ^ 2 * p.I1 ≠ 0 := by
    rw [show p.mb * p.m1 * p.I1 * 2 + p.mb * p.m1 ^ 2 * p.l1 ^ 2
        + p.mb ^ 2 * p.m1 * p.l1 ^ 2 + p.mb ^ 2 * p.I1 + p.m1 ^ 2 * p.I1 =
      (p.mb + p.m1) * ((p.mb + p.m1) * p.I1 + p.m1 * p.mb * p.l1 ^ 2) from by ring]
    exact mul_ne_zero hmt2 (hKdef ▸ hK)
  have hKq : (p.mb + p.m1) * p.I1 + p.m1 * p.mb * p.l1 ^ 2 ≠ 0 := hKdef ▸ hK
  have halpha : p.alpha = p.m1 * p.l1 / (p.m1 + p.mb) := rfl
  have hIred2 : p.Ired = Kred p / (p.m1 + p.mb) := by
    unfold QuadrotorPendulum.Ired Kred
    field_simp
    ring
  have hu0 : HasFDerivAt (fun w : (Fin 2 → ℝ) × (Fin 8 → ℝ) => w.1 0) (coordU 0)
      (u_f, x_f) := (coordU 0).hasFDerivAt
  have hu1 : HasFDerivAt (fun w : (Fin 2 → ℝ) × (Fin 8 → ℝ) => w.1 1) (coordU 1)
      (u_f, x_f) := (coordU 1).hasFDerivAt
  have hx2 : HasFDerivAt (fun w : (Fin 2 → ℝ) × (Fin 8 → ℝ) => w.2 2) (coordX 2)
      (u_f, x_f) := (coordX 2).hasFDerivAt
  have hx3 : HasFDerivAt (fun w : (Fin 2 → ℝ) × (Fin 8 → ℝ) => w.2 3) (coordX 3)
      (u_f, x_f) := (coordX 3).hasFDerivAt
  have hx7v : HasFDerivAt (fun w : (Fin 2 → ℝ) × (Fin 8 → ℝ) => w.2 7) (coordX 7)
      (u_f, x_f) := (coordX 7).hasFDerivAt
  have hU := hu0.add hu1
  have hd := hx3.sub hx2
  simp only [div_eq_mul_inv, pow_two]

  refine ((((hU.neg.mul hx2.sin).mul_const (p.mb + p.m1)⁻¹).add
      (((hx3.sin.const_mul (p.m1 * p.l1)).mul (hx7v.mul hx7v)).mul_const (p.mb + p.m1)⁻¹)).add
      ((((hx3.cos.const_mul (p.m1 * p.l1 * (p.m1 * p.l1))).mul hd.sin).mul hU).mul_const
        ((p.mb + p.m1) * Kred p)⁻¹)).congr_fderiv
    (ContinuousLinearMap.ext fun δ => ?_)
  simp [GetLinearizedDynamics, coordX, coordU, Fin.sum_univ_eight, Fin.sum_univ_two,
    Matrix.of_apply, cons8_0, cons8_1, cons8_2, cons8_3, cons8_4, cons8_5, cons8_6,
    cons8_7, cons2_0, cons2_1, qOf_two, qOf_three, qdOf_three,
    Real.sin_sub, Real.cos_sub, Real.sin_two_mul, Real.cos_two_mul, smul_eq_mul,
    -Matrix.cons_val']
  rw [halpha, hIred2]
  field_simp
  linear_combination (-(Kred p ^ 2 * δ.2 3 * p.l1 ^ 2 * p.m1 ^ 2 * Real.cos (x_f 2)
      * (u_f 0 + u_f 1)) * (p.mb + p.m1) ^ 11) * Real.sin_sq_add_cos_sq (x_f 3)
set_option maxHeartbeats 2000000 in
/-- Row 5: the vertical acceleration component. -/
theorem hasFDeriv_comp5 (p : QuadrotorPendulum) (hmb : 0 < p.mb) (hm1 : 0 < p.m1)
    (hl1 : 0 < p.l1) (u_f : Fin 2 → ℝ) (x_f : Fin 8 → ℝ) :
    HasFDerivAt (fun w : (Fin 2 → ℝ) × (Fin 8 → ℝ) =>
        -p.g + (w.1 0 + w.1 1) * Real.cos (w.2 2) / (p.mb + p.m1)
          - p.m1 * p.l1 * Real.cos (w.2 3) * w.2 7 ^ 2 / (p.mb + p.m1)
          + (p.m1 * p.l1) ^ 2 * Real.sin (w.2 3) * Real.sin (w.2 3 - w.2 2) * (w.1 0 + w.1 1)
              / ((p.mb + p.m1) * Kred p))
      ((∑ j : Fin 8, (GetLinearizedDynamics p u_f x_f).1 5 j • coordX j)
        + ∑ k : Fin 2, (GetLinearizedDynamics p u_f x_f).2 5 k • coordU k) (u_f, x_f) := by
  have hmt : p.m1 + p.mb ≠ 0 := by positivity
  have hmt2 : p.mb + p.m1 ≠ 0 := by positivity
  have hK : Kred p ≠ 0 := ne_of_gt (Kred_pos p hmb hm1 hl1)
  have hKdef : Kred p = (p.mb + p.m1) * p.I1 + p.m1 * p.mb * p.l1 ^ 2 := rfl
  have hK2 : p.m1 * p.l1 ^ 2 * p.mb + p.m1 * p.I1 + p.I1 * p.mb ≠ 0 := by
    rw [show p.m1 * p.l1 ^ 2 * p.mb + p.m1 * p.I1 + p.I1 * p.mb =
      (p.mb + p.m1) * p.I1 + p.m1 * p.mb * p.l1 ^ 2 from by ring]
    exact hKdef ▸ hK
  have hK3 : p.mb * p.m1 * p.I1 * 2 + p.mb * p.m1 ^ 2 * p.l1 ^ 2
      + p.mb ^ 2 * p.m1 * p.l1 ^ 2 + p.mb ^ 2 * p.I1 + p.m1 ^ 2 * p.I1 ≠ 0 := by
    rw [show p.mb * p.m1 * p.I1 * 2 + p.mb * p.m1 ^ 2 * p.l1 ^ 2
        + p.mb ^ 2 * p.m1 * p.l1 ^ 2 + p.mb ^ 2 * p.I1 + p.m1 ^ 2 * p.I1 =
      (p.mb + p.m1) * ((p.mb + p.m1) * p.I1 + p.m1 * p.mb * p.l1 ^ 2) from by ring]
    exact mul_ne_zero hmt2 (hKdef ▸ hK)
  have hKq : (p.mb + p.m1) * p.I1 + p.m1 * p.mb * p.l1 ^ 2 ≠ 0 := hKdef ▸ hK
  have halpha : p.alpha = p.m1 * p.l1 / (p.m1 + p.mb) := rfl
  have hIred2 : p.Ired = Kred p / (p.m1 + p.mb) := by
    unfold QuadrotorPendulum.Ired Kred
    field_simp
    ring
  have hu0 : HasFDerivAt (fun w : (Fin 2 → ℝ) × (Fin 8 → ℝ) => w.1 0) (coordU 0)
      (u_f, x_f) := (coordU 0).hasFDerivAt
  have hu1 : HasFDerivAt (fun w : (Fin 2 → ℝ) × (Fin 8 → ℝ) => w.1 1) (coordU 1)
      (u_f, x_f) := (coordU 1).hasFDerivAt
  have hx2 : HasFDerivAt (fun w : (Fin 2 → ℝ) × (Fin 8 → ℝ) => w.2 2) (coordX 2)
      (u_f, x_f) := (coordX 2).hasFDerivAt
  have hx3 : HasFDerivAt (fun w : (Fin 2 → ℝ) × (Fin 8 → ℝ) => w.2 3) (coordX 3)
      (u_f, x_f) := (coordX 3).hasFDerivAt
  have hx7v : HasFDerivAt (fun w : (Fin 2 → ℝ) × (Fin 8 → ℝ) => w.2 7) (coordX 7)
      (u_f, x_f) := (coordX 7).hasFDerivAt
  have hU := hu0.add hu1
  have hd := hx3.sub hx2
  simp only [div_eq_mul_inv, pow_two]

  refine (((((hU.mul hx2.cos).mul_const (p.mb + p.m1)⁻¹).const_add (-p.g)).sub
      (((hx3.cos.const_mul (p.m1 * p.l1)).mul (hx7v.mul hx7v)).mul_const (p.mb + p.m1)⁻¹)).add
      ((((hx3.sin.const_mul (p.m1 * p.l1 * (p.m1 * p.l1))).mul hd.sin).mul hU).mul_const
        ((p.mb + p.m1) * Kred p)⁻¹)).congr_fderiv
    (ContinuousLinearMap.ext fun δ => ?_)
  simp [GetLinearizedDynamics, coordX, coordU, Fin.sum_univ_eight, Fin.sum_univ_two,
    Matrix.of_apply, cons8_0, cons8_1, cons8_2, cons8_3, cons8_4, cons8_5, cons8_6,
    cons8_7, cons2_0, cons2_1, qOf_two, qOf_three, qdOf_three,
    Real.sin_sub, Real.cos_sub, Real.sin_two_mul, Real.cos_two_mul, smul_eq_mul,
    -Matrix.cons_val']
  rw [halpha, hIred2]
  field_simp
  linear_combination (Kred p ^ 5 * p.l1 ^ 2 * p.m1 ^ 2 * ((δ.1 0 + δ.1 1) * Real.cos (x_f 2)
        + (δ.2 3 - δ.2 2) * Real.sin (x_f 2) * (u_f 0 + u_f 1))
      * (p.mb + p.m1) ^ 11) * Real.sin_sq_add_cos_sq (x_f 3)
    + (Kred p ^ 5 * ((δ.1 0 + δ.1 1) * Real.cos (x_f 2)
        - δ.2 2 * Real.sin (x_f 2) * (u_f 0 + u_f 1)) * (p.mb + p.m1) ^ 11) * hKdef

set_option maxHeartbeats 1000000 in
/-- The explicit closed-form dynamics has the matrices of
`GetLinearizedDynamics` as its Fréchet derivative at every operating point. -/
theorem explicit_hasFDerivAt (p : QuadrotorPendulum) (hmb : 0 < p.mb) (hm1 : 0 < p.m1)
    (hl1 : 0 < p.l1) (u_f : Fin 2 → ℝ) (x_f : Fin 8 → ℝ) :
    HasFDerivAt (fun w : (Fin 2 → ℝ) × (Fin 8 → ℝ) =>
        joinVec (qdOf w.2) (qddExplicit p w.1 w.2))
      (linearizedMap p u_f x_f) (u_f, x_f) := by
  simp only [linearizedMap]
  apply hasFDerivAt_pi.2
  intro i
  fin_cases i
  · exact hasFDeriv_comp0 p u_f x_f
  · exact hasFDeriv_comp1 p u_f x_f
  · exact hasFDeriv_comp2 p u_f x_f
  · exact hasFDeriv_comp3 p u_f x_f
  · exact hasFDeriv_comp4 p hmb hm1 hl1 u_f x_f
  · exact hasFDeriv_comp5 p hmb hm1 hl1 u_f x_f
  · exact hasFDeriv_comp6 p u_f x_f
  · exact hasFDeriv_comp7 p hmb hm1 hl1 u_f x_f

/-- C2 (amended): at every operating point whose commands are strictly
inside the input range, and for valid (positive) parameters, the pair
`(A, B)` returned by `GetLinearizedDynamics` is the exact Fréchet
derivative of the dynamics `Derivative` (`evaluate_f`, here `fFun`) with
respect to `(u, x)` jointly: the first conjunct ties `linearizedMap` to
`A δx + B δu`, the second states differentiability with that derivative,
i.e. the first-order expansion with `o(‖δ‖)` residual. -/
theorem linearize_hasFDerivAt_interior (p : QuadrotorPendulum) (hmb : 0 < p.mb)
    (hlb : 0 < p.lb) (hm1 : 0 < p.m1) (hl1 : 0 < p.l1) (u_f : Fin 2 → ℝ)
    (x_f : Fin 8 → ℝ) (hu0 : |u_f 0| < p.input_max) (hu1 : |u_f 1| < p.input_max) :
    (∀ δ : (Fin 2 → ℝ) × (Fin 8 → ℝ), linearizedMap p u_f x_f δ = fun i =>
        ((GetLinearizedDynamics p u_f x_f).1 *ᵥ δ.2) i
          + ((GetLinearizedDynamics p u_f x_f).2 *ᵥ δ.1) i) ∧
      HasFDerivAt (fun w : (Fin 2 → ℝ) × (Fin 8 → ℝ) => fFun p w.1 w.2)
        (linearizedMap p u_f x_f) (u_f, x_f) := by
  refine ⟨linearizedMap_apply p u_f x_f, ?_⟩
  have hopen : IsOpen {w : (Fin 2 → ℝ) × (Fin 8 → ℝ) |
      |w.1 0| < p.input_max ∧ |w.1 1| < p.input_max} := by
    have hc0 : Continuous fun w : (Fin 2 → ℝ) × (Fin 8 → ℝ) => |w.1 0| :=
      ((continuous_apply (0 : Fin 2)).comp continuous_fst).abs
    have hc1 : Continuous fun w : (Fin 2 → ℝ) × (Fin 8 → ℝ) => |w.1 1| :=
      ((continuous_apply (1 : Fin 2)).comp continuous_fst).abs
    exact (isOpen_lt hc0 continuous_const).inter (isOpen_lt hc1 continuous_const)
  have hev : (fun w : (Fin 2 → ℝ) × (Fin 8 → ℝ) => fFun p w.1 w.2) =ᶠ[nhds (u_f, x_f)]
      fun w => joinVec (qdOf w.2) (qddExplicit p w.1 w.2) := by
    refine Filter.eventuallyEq_of_mem (hopen.mem_nhds ⟨hu0, hu1⟩) fun w hw => ?_
    rw [fFun_eq_explicit p hmb hlb hm1 hl1 w.1 w.2]
    have harg : (fun i => clampInput p.input_max (w.1 i)) = w.1 := by
      funext i
      fin_cases i
      · exact clampInput_eq_self _ _ (le_of_lt hw.1)
      · exact clampInput_eq_self _ _ (le_of_lt hw.2)
    rw [harg]
  exact (explicit_hasFDerivAt p hmb hm1 hl1 u_f x_f).congr_of_eventuallyEq hev

/-- Witness for the amended C2 at the default parameters and the hover
operating point `u_f = [0,0]`, `x_f = 0`. -/
theorem linearize_hasFDerivAt_interior_witness :
    (|(![0, 0] : Fin 2 → ℝ) 0| < (mkQuadrotorPendulum 1 (1 / 5) 2 (1 / 5) 10 10).input_max ∧
        |(![0, 0] : Fin 2 → ℝ) 1| < (mkQuadrotorPendulum 1 (1 / 5) 2 (1 / 5) 10 10).input_max) ∧
      ((∀ δ : (Fin 2 → ℝ) × (Fin 8 → ℝ),
          linearizedMap (mkQuadrotorPendulum 1 (1 / 5) 2 (1 / 5) 10 10) ![0, 0]
              (fun _ => 0) δ = fun i =>
            ((GetLinearizedDynamics (mkQuadrotorPendulum 1 (1 / 5) 2 (1 / 5) 10 10) ![0, 0]
                (fun _ => 0)).1 *ᵥ δ.2) i
              + ((GetLinearizedDynamics (mkQuadrotorPendulum 1 (1 / 5) 2 (1 / 5) 10 10) ![0, 0]
                  (fun _ => 0)).2 *ᵥ δ.1) i) ∧
        HasFDerivAt (fun w : (Fin 2 → ℝ) × (Fin 8 → ℝ) =>
            fFun (mkQuadrotorPendulum 1 (1 / 5) 2 (1 / 5) 10 10) w.1 w.2)
          (linearizedMap (mkQuadrotorPendulum 1 (1 / 5) 2 (1 / 5) 10 10) ![0, 0]
            (fun _ => 0))
          (![0, 0], fun _ => 0)) := by
  have h0 : |(![0, 0] : Fin 2 → ℝ) 0| <
      (mkQuadrotorPendulum 1 (1 / 5) 2 (1 / 5) 10 10).input_max := by
    norm_num [cons2_0, mkQuadrotorPendulum]
  have h1 : |(![0, 0] : Fin 2 → ℝ) 1| <
      (mkQuadrotorPendulum 1 (1 / 5) 2 (1 / 5) 10 10).input_max := by
    norm_num [cons2_1, mkQuadrotorPendulum]
  exact ⟨⟨h0, h1⟩, linearize_hasFDerivAt_interior _ (by norm_num [mkQuadrotorPendulum])
    (by norm_num [mkQuadrotorPendulum]) (by norm_num [mkQuadrotorPendulum])
    (by norm_num [mkQuadrotorPendulum]) _ _ h0 h1⟩

/-- C2 (counterexample): at the saturated operating point
`u_f = [20, 20]` (outside the input range `[-10, 10]`), the matrices
returned by `GetLinearizedDynamics` are not the derivative of
`Derivative`: clamping makes the dynamics locally constant along the
command direction `(1, 1)` while row 5 of `B` contributes the nonzero
coefficient `2/3`, so no first-order expansion with those matrices holds
there and the claim, universally quantified over operating points, fails. -/
theorem linearize_not_derivative_at_saturated :
    ¬ HasFDerivAt (fun w : (Fin 2 → ℝ) × (Fin 8 → ℝ) =>
        fFun (mkQuadrotorPendulum 1 (1 / 5) 2 (1 / 5) 10 10) w.1 w.2)
      (linearizedMap (mkQuadrotorPendulum 1 (1 / 5) 2 (1 / 5) 10 10) ![20, 20]
        (fun _ => 0))
      (![20, 20], fun _ => 0) := by
  intro h
  have hγ : HasDerivAt
      (fun t : ℝ => ((fun _ : Fin 2 => 20 + t), (fun _ : Fin 8 => (0 : ℝ))))
      ((fun _ : Fin 2 => (1 : ℝ)), (fun _ : Fin 8 => (0 : ℝ))) 0 := by
    refine HasDerivAt.prod (hasDerivAt_pi.2 fun i => ?_) (hasDerivAt_const _ _)
    simpa using (hasDerivAt_id (0 : ℝ)).const_add 20
  have hpt : ((![20, 20] : Fin 2 → ℝ), fun _ : Fin 8 => (0 : ℝ)) =
      ((fun _ : Fin 2 => (20 : ℝ) + 0), (fun _ : Fin 8 => (0 : ℝ))) := by
    simp only [Prod.mk.injEq]
    refine ⟨?_, trivial⟩
    funext i
    fin_cases i <;> norm_num
  have hcomp := h.comp_hasDerivAt_of_eq 0 hγ hpt
  have hconst : HasDerivAt
      ((fun w : (Fin 2 → ℝ) × (Fin 8 → ℝ) =>
          fFun (mkQuadrotorPendulum 1 (1 / 5) 2 (1 / 5) 10 10) w.1 w.2) ∘
        fun t : ℝ => ((fun _ : Fin 2 => 20 + t), (fun _ : Fin 8 => (0 : ℝ))))
      (0 : Fin 8 → ℝ) 0 := by
    have hmem : {t : ℝ | |t| < 10} ∈ nhds (0 : ℝ) :=
      (isOpen_lt continuous_abs continuous_const).mem_nhds (by norm_num)
    refine (hasDerivAt_const (0 : ℝ)
      (joinVec (qdOf fun _ => 0)
        (qddExplicit (mkQuadrotorPendulum 1 (1 / 5) 2 (1 / 5) 10 10)
          (fun _ => (10 : ℝ)) fun _ => 0))).congr_of_eventuallyEq ?_
    refine Filter.eventuallyEq_of_mem hmem fun t ht => ?_
    have ht' : -10 < t := (abs_lt.1 ht).1
    show fFun (mkQuadrotorPendulum 1 (1 / 5) 2 (1 / 5) 10 10)
        (fun _ : Fin 2 => 20 + t) (fun _ : Fin 8 => (0 : ℝ)) = _
    rw [fFun_eq_explicit _ (by norm_num [mkQuadrotorPendulum])
      (by norm_num [mkQuadrotorPendulum]) (by norm_num [mkQuadrotorPendulum])
      (by norm_num [mkQuadrotorPendulum]) _ _]
    have harg : (fun i : Fin 2 => clampInput
        (mkQuadrotorPendulum 1 (1 / 5) 2 (1 / 5) 10 10).input_max (20 + t)) =
        fun _ : Fin 2 => (10 : ℝ) := by
      funext i
      unfold clampInput
      rw [show (mkQuadrotorPendulum 1 (1 / 5) 2 (1 / 5) 10 10).input_max = 10 from rfl,
        min_eq_left (by linarith), max_eq_right (by norm_num)]
    rw [harg]
  have hLv := HasDerivAt.unique hcomp hconst
  have h5 := congrFun hLv 5
  rw [congrFun (linearizedMap_apply (mkQuadrotorPendulum 1 (1 / 5) 2 (1 / 5) 10 10)
    ![20, 20] (fun _ => 0) ((fun _ : Fin 2 => (1 : ℝ)), (fun _ : Fin 8 => (0 : ℝ)))) 5]
    at h5
  simp [GetLinearizedDynamics, Matrix.mulVec, dotProduct, Fin.sum_univ_eight,
    Fin.sum_univ_two, Matrix.of_apply, cons8_0, cons8_1, cons8_2, cons8_3, cons8_4,
    cons8_5, cons8_6, cons8_7, cons2_0, cons2_1, qOf_two, qOf_three, qdOf_three,
    QuadrotorPendulum.alpha, QuadrotorPendulum.Ired, QuadrotorPendulum.I1,
    mkQuadrotorPendulum, -Matrix.cons_val'] at h5
  norm_num at h5
